import Mathlib

/-!
# Verification of the progen-jax core model

A shallow embedding of `progen/progen.py`: tensors are `Fin`-indexed
real-valued functions, fallible shape contracts are modelled with `Option`.
The definitions follow the source line by line; the theorems check the
natural-language specification against them.
-/

namespace ProGen

open Finset

/-! ## Index arithmetic helpers -/

theorem mul_add_lt {a A e E : ℕ} (ha : a < A) (he : e < E) : a * E + e < A * E := by
  calc a * E + e < a * E + E := by omega
    _ = (a + 1) * E := by ring
    _ ≤ A * E := Nat.mul_le_mul_right E ha

theorem div_idx_lt {t A E : ℕ} (h : t < A * E) : t / E < A := by
  rcases Nat.eq_zero_or_pos E with hE | hE
  · subst hE; omega
  · exact Nat.div_lt_of_lt_mul (Nat.mul_comm A E ▸ h)

theorem mod_idx_lt {t A E : ℕ} (h : t < A * E) : t % E < E := by
  rcases Nat.eq_zero_or_pos E with hE | hE
  · subst hE; omega
  · exact Nat.mod_lt _ hE

theorem half_lt {t m : ℕ} (h : t < 2 * m) : t / 2 < m := by omega

/-! ## Scale-only layer normalization

`LayerNorm = partial(hk.LayerNorm, create_scale = True, create_offset = False,
axis = -1)`: normalize over the feature axis (population mean/variance,
epsilon `1e-5`, haiku's default), multiply by a learned per-feature scale,
no additive offset. -/

noncomputable def lnEps : ℝ := 1e-5

noncomputable def layerNorm (D : ℕ) (g : Fin D → ℝ) (x : Fin D → ℝ) : Fin D → ℝ :=
  fun i =>
    let mu : ℝ := (∑ j, x j) / D
    let var : ℝ := (∑ j, (x j - mu) ^ 2) / D
    g i * ((x i - mu) / Real.sqrt (var + lnEps))

/-! ## Rotary position embedding

`fixed_pos_embedding(seq, dim)`:
`inv_freq = 1.0 / (10000 ** (np.arange(0, dim, 2) / dim))` — entry `j` of
`np.arange(0, dim, 2)` is `2*j`, and the arange has `(dim+1)/2` entries —
then `sinusoid_inp = einsum("i , j -> i j", np.arange(seq), inv_freq)` and
the pair `(sin, cos)` of the table is returned. -/

noncomputable def sinusoidInp (seq d : ℕ) : Fin seq → Fin ((d + 1) / 2) → ℝ :=
  fun i j => (i : ℝ) * (1 / (10000 : ℝ) ^ (((2 * j.val : ℕ) : ℝ) / (d : ℝ)))

noncomputable def fixedPosEmbedding (seq d : ℕ) :
    (Fin seq → Fin ((d + 1) / 2) → ℝ) × (Fin seq → Fin ((d + 1) / 2) → ℝ) :=
  (fun i j => Real.sin (sinusoidInp seq d i j),
   fun i j => Real.cos (sinusoidInp seq d i j))

/-- `rotate_every_two(x)` on the feature axis: even slot `2j` receives
`-x[2j+1]`, odd slot `2j+1` receives `x[2j]` (stack of `(-x2, x1)` pairs,
flattened back). -/
noncomputable def rotateEveryTwo (m : ℕ) (x : Fin (2 * m) → ℝ) : Fin (2 * m) → ℝ :=
  fun t =>
    if _ : t.val % 2 = 0 then
      -x ⟨t.val + 1, by have := t.isLt; omega⟩
    else
      x ⟨t.val - 1, by have := t.isLt; omega⟩

/-- `apply_rotary_pos_emb(x, sincos)`: each of the `m` table frequencies is
duplicated twice along the feature axis (`repeat "b n -> b (n j)", j = 2`,
so full-width slot `t` reads table column `t / 2`), broadcast over the head
axis, and the result is `x * cos + rotate_every_two(x) * sin`. -/
noncomputable def applyRotaryPosEmb (H N m : ℕ)
    (sc : (Fin N → Fin m → ℝ) × (Fin N → Fin m → ℝ))
    (x : Fin H → Fin N → Fin (2 * m) → ℝ) : Fin H → Fin N → Fin (2 * m) → ℝ :=
  fun a i t =>
    x a i t * sc.2 i ⟨t.val / 2, half_lt t.isLt⟩ +
      rotateEveryTwo m (x a i) t * sc.1 i ⟨t.val / 2, half_lt t.isLt⟩

/-- Euclidean norm of a feature vector. -/
noncomputable def vecNorm (N : ℕ) (v : Fin N → ℝ) : ℝ :=
  Real.sqrt (∑ t, v t ^ 2)

/-! ## Sum plumbing for pairwise (even/odd) feature slots -/

noncomputable def extendF (N : ℕ) (f : Fin N → ℝ) : ℕ → ℝ :=
  fun t => if h : t < N then f ⟨t, h⟩ else 0

theorem sum_fin_eq_sum_range (N : ℕ) (f : Fin N → ℝ) :
    ∑ t, f t = ∑ t ∈ Finset.range N, extendF N f t := by
  rw [Finset.sum_range]
  refine Finset.sum_congr rfl fun t _ => ?_
  simp only [extendF, dif_pos t.isLt]

theorem sum_range_two_mul (m : ℕ) (g : ℕ → ℝ) :
    ∑ t ∈ Finset.range (2 * m), g t
      = ∑ i ∈ Finset.range m, (g (2 * i) + g (2 * i + 1)) := by
  induction m with
  | zero => simp
  | succ k ih =>
    have h2 : 2 * (k + 1) = 2 * k + 1 + 1 := by ring
    rw [h2, Finset.sum_range_succ, Finset.sum_range_succ, ih, Finset.sum_range_succ]
    ring

theorem rotateEveryTwo_even (m i : ℕ) (h0 : 2 * i < 2 * m) (h1 : 2 * i + 1 < 2 * m)
    (y : Fin (2 * m) → ℝ) :
    rotateEveryTwo m y ⟨2 * i, h0⟩ = -y ⟨2 * i + 1, h1⟩ := by
  unfold rotateEveryTwo
  rw [dif_pos (show 2 * i % 2 = 0 by omega)]

theorem rotateEveryTwo_odd (m i : ℕ) (h0 : 2 * i < 2 * m) (h1 : 2 * i + 1 < 2 * m)
    (y : Fin (2 * m) → ℝ) :
    rotateEveryTwo m y ⟨2 * i + 1, h1⟩ = y ⟨2 * i, h0⟩ := by
  unfold rotateEveryTwo
  rw [dif_neg (show ¬ (2 * i + 1) % 2 = 0 by omega)]
  exact congrArg y (Fin.ext (show 2 * i + 1 - 1 = 2 * i by omega))

theorem rotary_pair (m i : ℕ) (hi : i < m) (h0 : 2 * i < 2 * m) (h1 : 2 * i + 1 < 2 * m)
    (s c : Fin m → ℝ) (hp : s ⟨i, hi⟩ ^ 2 + c ⟨i, hi⟩ ^ 2 = 1) (y : Fin (2 * m) → ℝ) :
    (y ⟨2 * i, h0⟩ * c ⟨2 * i / 2, half_lt h0⟩
        + rotateEveryTwo m y ⟨2 * i, h0⟩ * s ⟨2 * i / 2, half_lt h0⟩) ^ 2
      + (y ⟨2 * i + 1, h1⟩ * c ⟨(2 * i + 1) / 2, half_lt h1⟩
        + rotateEveryTwo m y ⟨2 * i + 1, h1⟩ * s ⟨(2 * i + 1) / 2, half_lt h1⟩) ^ 2
      = y ⟨2 * i, h0⟩ ^ 2 + y ⟨2 * i + 1, h1⟩ ^ 2 := by
  have hidx0 : ∀ (f : Fin m → ℝ) (p : 2 * i / 2 < m), f ⟨2 * i / 2, p⟩ = f ⟨i, hi⟩ :=
    fun f p => congrArg f (Fin.ext (show 2 * i / 2 = i by omega))
  have hidx1 : ∀ (f : Fin m → ℝ) (p : (2 * i + 1) / 2 < m), f ⟨(2 * i + 1) / 2, p⟩ = f ⟨i, hi⟩ :=
    fun f p => congrArg f (Fin.ext (show (2 * i + 1) / 2 = i by omega))
  rw [rotateEveryTwo_even m i h0 h1, rotateEveryTwo_odd m i h0 h1,
    hidx0 c _, hidx0 s _, hidx1 c _, hidx1 s _]
  linear_combination (y ⟨2 * i, h0⟩ ^ 2 + y ⟨2 * i + 1, h1⟩ ^ 2) * hp

theorem rotary_sumsq (m : ℕ) (s c : Fin m → ℝ) (hp : ∀ j, s j ^ 2 + c j ^ 2 = 1)
    (y : Fin (2 * m) → ℝ) :
    ∑ t, (y t * c ⟨t.val / 2, half_lt t.isLt⟩
        + rotateEveryTwo m y t * s ⟨t.val / 2, half_lt t.isLt⟩) ^ 2
      = ∑ t, y t ^ 2 := by
  rw [sum_fin_eq_sum_range, sum_fin_eq_sum_range, sum_range_two_mul, sum_range_two_mul]
  refine Finset.sum_congr rfl fun i hi => ?_
  rw [Finset.mem_range] at hi
  have h0 : 2 * i < 2 * m := by omega
  have h1 : 2 * i + 1 < 2 * m := by omega
  simp only [extendF, dif_pos h0, dif_pos h1]
  exact rotary_pair m i hi h0 h1 s c (hp ⟨i, hi⟩) y

/-! ## Claims C3 and C6 -/

/-- C3: for `n > 0` and even `d`, `fixed_pos_embedding(n, d)` returns a pair
of `(n, d/2)`-shaped tables whose entries are `sin(i * 10000^(-2j/d))` and
`cos(i * 10000^(-2j/d))`; the tables are a pure function of `(n, d)` with no
learned parameters. -/
theorem fixedPosEmbedding_spec (n d : ℕ) (_hn : 0 < n) (hd : d % 2 = 0) :
    (d + 1) / 2 = d / 2 ∧
      ∀ (i : Fin n) (j : Fin ((d + 1) / 2)),
        (fixedPosEmbedding n d).1 i j
            = Real.sin ((i : ℝ) * (10000 : ℝ) ^ (-(2 * (j : ℝ)) / (d : ℝ))) ∧
          (fixedPosEmbedding n d).2 i j
            = Real.cos ((i : ℝ) * (10000 : ℝ) ^ (-(2 * (j : ℝ)) / (d : ℝ))) := by
  have key : ∀ (i : Fin n) (j : Fin ((d + 1) / 2)),
      sinusoidInp n d i j = (i : ℝ) * (10000 : ℝ) ^ (-(2 * (j : ℝ)) / (d : ℝ)) := by
    intro i j
    unfold sinusoidInp
    rw [neg_div, Real.rpow_neg (by norm_num), one_div]
    push_cast
    ring_nf
  refine ⟨by omega, fun i j => ⟨?_, ?_⟩⟩
  · show Real.sin (sinusoidInp n d i j) = _
    rw [key]
  · show Real.cos (sinusoidInp n d i j) = _
    rw [key]

/-- C3 witness: concrete instantiation at `n = 2`, `d = 2`, `i = j = 0`. -/
theorem fixedPosEmbedding_spec_witness :
    (fixedPosEmbedding 2 2).1 0 0
      = Real.sin ((((0 : Fin 2) : ℕ) : ℝ)
          * (10000 : ℝ) ^ (-(2 * (((0 : Fin 1) : ℕ) : ℝ)) / ((2 : ℕ) : ℝ))) :=
  ((fixedPosEmbedding_spec 2 2 (by norm_num) (by norm_num)).2 0 0).1

/-- C6: the `fixed_pos_embedding` tables satisfy `sin² + cos² = 1`
elementwise, and the rotary transform `x * cos + rotate_every_two(x) * sin`
(with each frequency duplicated twice along the feature axis) preserves the
Euclidean norm of every feature row whenever the tables satisfy that
identity. -/
theorem rotary_norm_preserving :
    (∀ (n d : ℕ) (i : Fin n) (j : Fin ((d + 1) / 2)),
        (fixedPosEmbedding n d).1 i j ^ 2 + (fixedPosEmbedding n d).2 i j ^ 2 = 1) ∧
      (∀ (H N m : ℕ) (sc : (Fin N → Fin m → ℝ) × (Fin N → Fin m → ℝ)),
        (∀ (i : Fin N) (j : Fin m), sc.1 i j ^ 2 + sc.2 i j ^ 2 = 1) →
          ∀ (x : Fin H → Fin N → Fin (2 * m) → ℝ) (a : Fin H) (i : Fin N),
            vecNorm (2 * m) (applyRotaryPosEmb H N m sc x a i)
              = vecNorm (2 * m) (x a i)) := by
  constructor
  · intro n d i j
    exact Real.sin_sq_add_cos_sq _
  · intro H N m sc hsc x a i
    unfold vecNorm
    congr 1
    exact rotary_sumsq m (fun j => sc.1 i j) (fun j => sc.2 i j) (hsc i) (x a i)

/-- C6 witness: rotating an all-ones row with the genuine
`fixed_pos_embedding 5 2` tables (position 0) preserves its norm. -/
theorem rotary_norm_preserving_witness :
    vecNorm (2 * 1) (applyRotaryPosEmb 1 5 1 (fixedPosEmbedding 5 2) (fun _ _ _ => (1 : ℝ)) 0 0)
      = vecNorm (2 * 1) (fun _ => (1 : ℝ)) :=
  rotary_norm_preserving.2 1 5 1 (fixedPosEmbedding 5 2)
    (fun i j => rotary_norm_preserving.1 5 2 i j) (fun _ _ _ => (1 : ℝ)) 0 0

/-! ## LocalAttention

The embedding follows `LocalAttention.__call__` step by step, with
`dim_head = 2 * m` (the rotary transform requires an even head dimension;
the source's `rotate_every_two` fails on an odd one), `H` heads, window
size `S`, and window count `W`.  Each intermediate of the source pipeline
is a named definition so the claims can speak about it. -/

/-- Learned parameters of `LocalAttention`: scale-only norm weights, the
fused qkv projection `hk.Linear(inner_dim * 3, with_bias = False)`, and the
output projection `hk.Linear(dim)` (with bias), `inner_dim = H * (2 * m)`. -/
structure LAParams (dim H m : ℕ) where
  normScale : Fin dim → ℝ
  wQkv : Fin dim → Fin (3 * (H * (2 * m))) → ℝ
  wOut : Fin (H * (2 * m)) → Fin dim → ℝ
  bOut : Fin dim → ℝ

/-- `x = self.norm(x)`. -/
noncomputable def laNormed (dim H m N : ℕ) (p : LAParams dim H m)
    (x : Fin N → Fin dim → ℝ) : Fin N → Fin dim → ℝ :=
  fun i => layerNorm dim p.normScale (x i)

/-- `qkv = self.to_qkv(x)` (no bias). -/
noncomputable def laQkv (dim H m N : ℕ) (p : LAParams dim H m)
    (x : Fin N → Fin dim → ℝ) : Fin N → Fin (3 * (H * (2 * m))) → ℝ :=
  fun i o => ∑ d, laNormed dim H m N p x i d * p.wQkv d o

/-- `q, k, v = np.split(qkv, 3, axis = -1)` followed by
`rearrange(t, 'n (h d) -> h n d', h = h)`: query head `a`, position `i`,
feature `e` reads fused column `a * (2m) + e` of the first third. -/
noncomputable def laQh (dim H m N : ℕ) (p : LAParams dim H m)
    (x : Fin N → Fin dim → ℝ) : Fin H → Fin N → Fin (2 * m) → ℝ :=
  fun a i e =>
    laQkv dim H m N p x i
      ⟨a.val * (2 * m) + e.val, by have := mul_add_lt a.isLt e.isLt; omega⟩

/-- Key third of the fused projection, head-split. -/
noncomputable def laKh (dim H m N : ℕ) (p : LAParams dim H m)
    (x : Fin N → Fin dim → ℝ) : Fin H → Fin N → Fin (2 * m) → ℝ :=
  fun a i e =>
    laQkv dim H m N p x i
      ⟨H * (2 * m) + (a.val * (2 * m) + e.val), by have := mul_add_lt a.isLt e.isLt; omega⟩

/-- Value third of the fused projection, head-split. -/
noncomputable def laVh (dim H m N : ℕ) (p : LAParams dim H m)
    (x : Fin N → Fin dim → ℝ) : Fin H → Fin N → Fin (2 * m) → ℝ :=
  fun a i e =>
    laQkv dim H m N p x i
      ⟨2 * (H * (2 * m)) + (a.val * (2 * m) + e.val), by have := mul_add_lt a.isLt e.isLt; omega⟩

/-- `q, k, v = map(lambda t: apply_rotary_pos_emb(t, pos_emb), (q, k, v))`,
query stream. -/
noncomputable def laQr (dim H m N : ℕ) (p : LAParams dim H m)
    (sc : (Fin N → Fin m → ℝ) × (Fin N → Fin m → ℝ))
    (x : Fin N → Fin dim → ℝ) : Fin H → Fin N → Fin (2 * m) → ℝ :=
  applyRotaryPosEmb H N m sc (laQh dim H m N p x)

/-- Rotary-rotated key stream. -/
noncomputable def laKr (dim H m N : ℕ) (p : LAParams dim H m)
    (sc : (Fin N → Fin m → ℝ) × (Fin N → Fin m → ℝ))
    (x : Fin N → Fin dim → ℝ) : Fin H → Fin N → Fin (2 * m) → ℝ :=
  applyRotaryPosEmb H N m sc (laKh dim H m N p x)

/-- Rotary-rotated value stream. -/
noncomputable def laVr (dim H m N : ℕ) (p : LAParams dim H m)
    (sc : (Fin N → Fin m → ℝ) × (Fin N → Fin m → ℝ))
    (x : Fin N → Fin dim → ℝ) : Fin H → Fin N → Fin (2 * m) → ℝ :=
  applyRotaryPosEmb H N m sc (laVh dim H m N p x)

/-- `rearrange(t, 'h (w n) d -> h w n d', w = window)`, query stream:
window `w`, within-window position `i` reads sequence position `w*S + i`. -/
noncomputable def laQw (dim H m S W : ℕ) (p : LAParams dim H m)
    (sc : (Fin (W * S) → Fin m → ℝ) × (Fin (W * S) → Fin m → ℝ))
    (x : Fin (W * S) → Fin dim → ℝ) : Fin H → Fin W → Fin S → Fin (2 * m) → ℝ :=
  fun a w i e => laQr dim H m (W * S) p sc x a ⟨w.val * S + i.val, mul_add_lt w.isLt i.isLt⟩ e

/-- Windowed rotated keys. -/
noncomputable def laKw (dim H m S W : ℕ) (p : LAParams dim H m)
    (sc : (Fin (W * S) → Fin m → ℝ) × (Fin (W * S) → Fin m → ℝ))
    (x : Fin (W * S) → Fin dim → ℝ) : Fin H → Fin W → Fin S → Fin (2 * m) → ℝ :=
  fun a w i e => laKr dim H m (W * S) p sc x a ⟨w.val * S + i.val, mul_add_lt w.isLt i.isLt⟩ e

/-- Windowed rotated values. -/
noncomputable def laVw (dim H m S W : ℕ) (p : LAParams dim H m)
    (sc : (Fin (W * S) → Fin m → ℝ) × (Fin (W * S) → Fin m → ℝ))
    (x : Fin (W * S) → Fin dim → ℝ) : Fin H → Fin W → Fin S → Fin (2 * m) → ℝ :=
  fun a w i e => laVr dim H m (W * S) p sc x a ⟨w.val * S + i.val, mul_add_lt w.isLt i.isLt⟩ e

/-- `np.pad(t, ((0, 0), (1, 0), (0, 0), (0, 0)), constant_values = 0.)`:
prepend one all-zero window along the window axis. -/
noncomputable def padWin (H W S D : ℕ) (t : Fin H → Fin W → Fin S → Fin D → ℝ) :
    Fin H → Fin (W + 1) → Fin S → Fin D → ℝ :=
  fun a w i e =>
    if h : w.val = 0 then 0 else t a ⟨w.val - 1, by have := w.isLt; omega⟩ i e

/-- `np.concatenate((t[:, :-1], t[:, 1:]), axis = 2)`: window `w` of the
result is the concatenation of padded windows `w` and `w + 1` along the
within-window axis. -/
noncomputable def concatAdj (H W S D : ℕ) (t : Fin H → Fin (W + 1) → Fin S → Fin D → ℝ) :
    Fin H → Fin W → Fin (2 * S) → Fin D → ℝ :=
  fun a w j e =>
    if h : j.val < S then t a ⟨w.val, by have := w.isLt; omega⟩ ⟨j.val, h⟩ e
    else t a ⟨w.val + 1, by have := w.isLt; omega⟩ ⟨j.val - S, by have := j.isLt; omega⟩ e

/-- Extended keys: padded then pairwise-concatenated windowed keys. -/
noncomputable def laKx (dim H m S W : ℕ) (p : LAParams dim H m)
    (sc : (Fin (W * S) → Fin m → ℝ) × (Fin (W * S) → Fin m → ℝ))
    (x : Fin (W * S) → Fin dim → ℝ) : Fin H → Fin W → Fin (2 * S) → Fin (2 * m) → ℝ :=
  concatAdj H W S (2 * m) (padWin H W S (2 * m) (laKw dim H m S W p sc x))

/-- Extended values: padded then pairwise-concatenated windowed values. -/
noncomputable def laVx (dim H m S W : ℕ) (p : LAParams dim H m)
    (sc : (Fin (W * S) → Fin m → ℝ) × (Fin (W * S) → Fin m → ℝ))
    (x : Fin (W * S) → Fin dim → ℝ) : Fin H → Fin W → Fin (2 * S) → Fin (2 * m) → ℝ :=
  concatAdj H W S (2 * m) (padWin H W S (2 * m) (laVw dim H m S W p sc x))

/-- `self.scale = dim_head ** -0.5` with `dim_head = 2 * m`. -/
noncomputable def laScale (m : ℕ) : ℝ := ((2 * m : ℕ) : ℝ) ^ (-(1 / 2) : ℝ)

/-- `ATTN_MASK_VALUE = -1e10`. -/
noncomputable def attnMaskValue : ℝ := -1e10

/-- `sim = np.einsum('h w i d, h w j d -> h w i j', q, k) * self.scale`. -/
noncomputable def laSim (dim H m S W : ℕ) (p : LAParams dim H m)
    (sc : (Fin (W * S) → Fin m → ℝ) × (Fin (W * S) → Fin m → ℝ))
    (x : Fin (W * S) → Fin dim → ℝ) : Fin H → Fin W → Fin S → Fin (2 * S) → ℝ :=
  fun a w i j =>
    (∑ e, laQw dim H m S W p sc x a w i e * laKx dim H m S W p sc x a w j e) * laScale m

/-- `mask = np.tril(np.ones((wsz, wsz * 2)), wsz)` keeps `j ≤ i + S`, and
`sim = np.where(mask, sim, ATTN_MASK_VALUE)`. -/
noncomputable def laMasked (dim H m S W : ℕ) (p : LAParams dim H m)
    (sc : (Fin (W * S) → Fin m → ℝ) × (Fin (W * S) → Fin m → ℝ))
    (x : Fin (W * S) → Fin dim → ℝ) : Fin H → Fin W → Fin S → Fin (2 * S) → ℝ :=
  fun a w i j =>
    if j.val ≤ i.val + S then laSim dim H m S W p sc x a w i j else attnMaskValue

/-- `nn.softmax(sim, axis = -1)` on one row (in exact real arithmetic the
max-subtracted form used by `jax.nn.softmax` equals this quotient). -/
noncomputable def softmaxRow (N : ℕ) (v : Fin N → ℝ) : Fin N → ℝ :=
  fun j => Real.exp (v j) / ∑ u, Real.exp (v u)

/-- `attn = nn.softmax(sim, axis = -1)`. -/
noncomputable def laAttn (dim H m S W : ℕ) (p : LAParams dim H m)
    (sc : (Fin (W * S) → Fin m → ℝ) × (Fin (W * S) → Fin m → ℝ))
    (x : Fin (W * S) → Fin dim → ℝ) : Fin H → Fin W → Fin S → Fin (2 * S) → ℝ :=
  fun a w i => softmaxRow (2 * S) (laMasked dim H m S W p sc x a w i)

/-- `out = np.einsum('h w i j, h w j d -> h w i d', attn, v)`. -/
noncomputable def laOutW (dim H m S W : ℕ) (p : LAParams dim H m)
    (sc : (Fin (W * S) → Fin m → ℝ) × (Fin (W * S) → Fin m → ℝ))
    (x : Fin (W * S) → Fin dim → ℝ) : Fin H → Fin W → Fin S → Fin (2 * m) → ℝ :=
  fun a w i e => ∑ j, laAttn dim H m S W p sc x a w i j * laVx dim H m S W p sc x a w j e

/-- `rearrange(out, 'h w n d -> (w n) (h d)')`. -/
noncomputable def laMerged (dim H m S W : ℕ) (p : LAParams dim H m)
    (sc : (Fin (W * S) → Fin m → ℝ) × (Fin (W * S) → Fin m → ℝ))
    (x : Fin (W * S) → Fin dim → ℝ) : Fin (W * S) → Fin (H * (2 * m)) → ℝ :=
  fun pq r =>
    laOutW dim H m S W p sc x
      ⟨r.val / (2 * m), div_idx_lt r.isLt⟩
      ⟨pq.val / S, div_idx_lt pq.isLt⟩
      ⟨pq.val % S, mod_idx_lt pq.isLt⟩
      ⟨r.val % (2 * m), mod_idx_lt r.isLt⟩

/-- `return self.to_out(out)`. -/
noncomputable def laOut (dim H m S W : ℕ) (p : LAParams dim H m)
    (sc : (Fin (W * S) → Fin m → ℝ) × (Fin (W * S) → Fin m → ℝ))
    (x : Fin (W * S) → Fin dim → ℝ) : Fin (W * S) → Fin dim → ℝ :=
  fun i d => (∑ r, laMerged dim H m S W p sc x i r * p.wOut r d) + p.bOut d

/-- `LocalAttention.__call__`: the
`assert (n % wsz) == 0` shape contract is modelled by `Option` — `none`
is the synchronous `AssertionError`, `some` the `(n, dim)` output. -/
noncomputable def localAttention (dim H m S : ℕ) (p : LAParams dim H m) (n : ℕ)
    (sc : (Fin n → Fin m → ℝ) × (Fin n → Fin m → ℝ)) (x : Fin n → Fin dim → ℝ) :
    Option (Fin n → Fin dim → ℝ) :=
  if h : n % S = 0 then
    have hc : n / S * S = n := Nat.div_mul_cancel (Nat.dvd_of_mod_eq_zero h)
    some (fun i d =>
      laOut dim H m S (n / S) p
        (fun i' j => sc.1 (Fin.cast hc i') j, fun i' j => sc.2 (Fin.cast hc i') j)
        (fun i' d' => x (Fin.cast hc i') d')
        (Fin.cast hc.symm i) d)
  else none

/-! ## Claims C1, C2, C4 -/

theorem laMasked_if (dim H m S W : ℕ) (p : LAParams dim H m)
    (sc : (Fin (W * S) → Fin m → ℝ) × (Fin (W * S) → Fin m → ℝ))
    (x : Fin (W * S) → Fin dim → ℝ) (a : Fin H) (w : Fin W) (i : Fin S) (j : Fin (2 * S)) :
    laMasked dim H m S W p sc x a w i j
      = if j.val ≤ i.val + S then
          laScale m * ∑ e, laQw dim H m S W p sc x a w i e * laKx dim H m S W p sc x a w j e
        else -(1e10 : ℝ) := by
  unfold laMasked laSim attnMaskValue
  split
  · ring
  · rfl

theorem concatPad_left (H W S D : ℕ) (t : Fin H → Fin W → Fin S → Fin D → ℝ)
    (a : Fin H) (w : Fin W) (i : Fin S) (e : Fin D) :
    concatAdj H W S D (padWin H W S D t) a w ⟨i.val, by have := i.isLt; omega⟩ e
      = if w.val = 0 then 0
        else t a ⟨w.val - 1, by have := w.isLt; omega⟩ i e := by
  unfold concatAdj padWin
  simp only [Fin.val_mk, Fin.eta]
  rw [dif_pos i.isLt]
  by_cases hw : w.val = 0
  · rw [dif_pos hw, if_pos hw]
  · rw [dif_neg hw, if_neg hw]

theorem concatPad_right (H W S D : ℕ) (t : Fin H → Fin W → Fin S → Fin D → ℝ)
    (a : Fin H) (w : Fin W) (i : Fin S) (e : Fin D) :
    concatAdj H W S D (padWin H W S D t) a w ⟨S + i.val, by have := i.isLt; omega⟩ e
      = t a w i e := by
  unfold concatAdj padWin
  simp only [Fin.val_mk, Nat.add_sub_cancel, Nat.add_sub_cancel_left, Fin.eta]
  rw [dif_neg (show ¬ S + i.val < S by omega)]
  rw [dif_neg (show ¬ w.val + 1 = 0 by omega)]

/-- C1: the pre-softmax similarity entry is the finite constant `-1e10`
(not `-∞`) exactly where `j > i + window_size`, and elsewhere equals
`dim_head^(-1/2)` times the dot product of rotated query `i` and extended
key `j`; for window `0` the zero-padded key slots `j < window_size` are not
masked, and their similarity entering the softmax is exactly `0`. -/
theorem localAttention_mask_spec (dim H m S : ℕ) (p : LAParams dim H m) :
    (∀ (W : ℕ) (sc : (Fin (W * S) → Fin m → ℝ) × (Fin (W * S) → Fin m → ℝ))
        (x : Fin (W * S) → Fin dim → ℝ) (a : Fin H) (w : Fin W) (i : Fin S) (j : Fin (2 * S)),
        laMasked dim H m S W p sc x a w i j
          = if j.val ≤ i.val + S then
              laScale m * ∑ e, laQw dim H m S W p sc x a w i e * laKx dim H m S W p sc x a w j e
            else -(1e10 : ℝ)) ∧
    (∀ (W' : ℕ)
        (sc : (Fin ((W' + 1) * S) → Fin m → ℝ) × (Fin ((W' + 1) * S) → Fin m → ℝ))
        (x : Fin ((W' + 1) * S) → Fin dim → ℝ) (a : Fin H) (i : Fin S) (j : Fin (2 * S)),
        j.val < S → laMasked dim H m S (W' + 1) p sc x a 0 i j = 0) := by
  constructor
  · intro W sc x a w i j
    exact laMasked_if dim H m S W p sc x a w i j
  · intro W' sc x a i j hj
    rw [laMasked_if, if_pos (show j.val ≤ i.val + S by omega)]
    have hz : ∀ e : Fin (2 * m), laKx dim H m S (W' + 1) p sc x a 0 j e = 0 := by
      intro e
      unfold laKx concatAdj padWin
      rw [dif_pos hj]
      rw [dif_pos (show ((0 : Fin (W' + 1)) : ℕ) = 0 from Fin.val_zero _)]
    rw [Finset.sum_eq_zero fun e _ => by rw [hz e, mul_zero], mul_zero]

/-- C1 witness: in a one-window configuration the zero-padded slot `j = 0`
of window `0` enters the softmax with similarity exactly `0`. -/
theorem localAttention_mask_spec_witness :
    laMasked 1 1 1 1 (0 + 1)
      (⟨fun _ => 0, fun _ _ => 0, fun _ _ => 0, fun _ => 0⟩ : LAParams 1 1 1)
      ((fun _ _ => 0, fun _ _ => 0) :
        (Fin ((0 + 1) * 1) → Fin 1 → ℝ) × (Fin ((0 + 1) * 1) → Fin 1 → ℝ))
      (fun _ _ => 0) 0 0 0 0 = 0 :=
  (localAttention_mask_spec 1 1 1 1 ⟨fun _ => 0, fun _ _ => 0, fun _ _ => 0, fun _ => 0⟩).2
    0 (fun _ _ => 0, fun _ _ => 0) (fun _ _ => 0) 0 0 0 (by decide)

/-- C2: after rotation and window-reshaping, the extended keys/values of
shape `(H, W, 2*S, 2*m)` are, window by window, `[previous window's rotated
content (zeros for window 0), own rotated content]`; the windowed streams
are exactly the rotary-rotated head streams. -/
theorem localAttention_window_concat (dim H m S W : ℕ) (p : LAParams dim H m)
    (sc : (Fin (W * S) → Fin m → ℝ) × (Fin (W * S) → Fin m → ℝ))
    (x : Fin (W * S) → Fin dim → ℝ) (a : Fin H) (w : Fin W) (i : Fin S) (e : Fin (2 * m)) :
    (laKx dim H m S W p sc x a w ⟨i.val, by have := i.isLt; omega⟩ e
        = if w.val = 0 then 0
          else laKw dim H m S W p sc x a ⟨w.val - 1, by have := w.isLt; omega⟩ i e) ∧
    (laKx dim H m S W p sc x a w ⟨S + i.val, by have := i.isLt; omega⟩ e
        = laKw dim H m S W p sc x a w i e) ∧
    (laVx dim H m S W p sc x a w ⟨i.val, by have := i.isLt; omega⟩ e
        = if w.val = 0 then 0
          else laVw dim H m S W p sc x a ⟨w.val - 1, by have := w.isLt; omega⟩ i e) ∧
    (laVx dim H m S W p sc x a w ⟨S + i.val, by have := i.isLt; omega⟩ e
        = laVw dim H m S W p sc x a w i e) ∧
    (laKw dim H m S W p sc x a w i e
        = applyRotaryPosEmb H (W * S) m sc (laKh dim H m (W * S) p x) a
            ⟨w.val * S + i.val, mul_add_lt w.isLt i.isLt⟩ e) ∧
    (laVw dim H m S W p sc x a w i e
        = applyRotaryPosEmb H (W * S) m sc (laVh dim H m (W * S) p x) a
            ⟨w.val * S + i.val, mul_add_lt w.isLt i.isLt⟩ e) := by
  refine ⟨?_, ?_, ?_, ?_, rfl, rfl⟩
  · exact concatPad_left H W S (2 * m) (laKw dim H m S W p sc x) a w i e
  · exact concatPad_right H W S (2 * m) (laKw dim H m S W p sc x) a w i e
  · exact concatPad_left H W S (2 * m) (laVw dim H m S W p sc x) a w i e
  · exact concatPad_right H W S (2 * m) (laVw dim H m S W p sc x) a w i e

/-- C4: the rotary rotation is applied to all three of query, key, and
value: each rotated stream satisfies the same formula
`x * cos + rotate_every_two(x) * sin` over its head-split stream — the
value stream included, not just q and k. -/
theorem localAttention_rotary_qkv (dim H m N : ℕ) (p : LAParams dim H m)
    (sc : (Fin N → Fin m → ℝ) × (Fin N → Fin m → ℝ)) (x : Fin N → Fin dim → ℝ)
    (a : Fin H) (i : Fin N) (t : Fin (2 * m)) :
    (laQr dim H m N p sc x a i t
        = laQh dim H m N p x a i t * sc.2 i ⟨t.val / 2, half_lt t.isLt⟩
          + rotateEveryTwo m (laQh dim H m N p x a i) t * sc.1 i ⟨t.val / 2, half_lt t.isLt⟩) ∧
    (laKr dim H m N p sc x a i t
        = laKh dim H m N p x a i t * sc.2 i ⟨t.val / 2, half_lt t.isLt⟩
          + rotateEveryTwo m (laKh dim H m N p x a i) t * sc.1 i ⟨t.val / 2, half_lt t.isLt⟩) ∧
    (laVr dim H m N p sc x a i t
        = laVh dim H m N p x a i t * sc.2 i ⟨t.val / 2, half_lt t.isLt⟩
          + rotateEveryTwo m (laVh dim H m N p x a i) t * sc.1 i ⟨t.val / 2, half_lt t.isLt⟩) :=
  ⟨rfl, rfl, rfl⟩

/-! ## SpatialGatingUnit (SGU)

`SGU.__call__` with construction-time sequence length `slen` and an input of
width `2 * hd` (the `np.split(x, 2, axis = -1)` halves): gate half is
scale-only layer-normalized, mixed across positions by the tril-masked
learned `(slen, slen)` matrix plus a per-position bias, multiplied into the
x half, and projected out. -/

/-- First half of `np.split(x, 2, axis = -1)`. -/
noncomputable def sguXHalf (slen hd : ℕ) (x : Fin slen → Fin (2 * hd) → ℝ) :
    Fin slen → Fin hd → ℝ :=
  fun i d => x i ⟨d.val, by have := d.isLt; omega⟩

/-- Second half of `np.split(x, 2, axis = -1)` (the gate). -/
noncomputable def sguGate (slen hd : ℕ) (x : Fin slen → Fin (2 * hd) → ℝ) :
    Fin slen → Fin hd → ℝ :=
  fun i d => x i ⟨hd + d.val, by have := d.isLt; omega⟩

/-- `gate = self.norm(gate)`. -/
noncomputable def sguGateN (slen hd : ℕ) (normScale : Fin hd → ℝ)
    (x : Fin slen → Fin (2 * hd) → ℝ) : Fin slen → Fin hd → ℝ :=
  fun i => layerNorm hd normScale (sguGate slen hd x i)

/-- `weights = weights * np.tril(np.ones((n, n)))`. -/
noncomputable def sguWMasked (slen : ℕ) (weights : Fin slen → Fin slen → ℝ) :
    Fin slen → Fin slen → ℝ :=
  fun mi k => weights mi k * (if k.val ≤ mi.val then 1 else 0)

/-- `gate = np.einsum('n d, m n -> m d', gate, weights); gate += biases`. -/
noncomputable def sguGateMixed (slen hd : ℕ) (normScale : Fin hd → ℝ)
    (weights : Fin slen → Fin slen → ℝ) (biases : Fin slen → ℝ)
    (x : Fin slen → Fin (2 * hd) → ℝ) : Fin slen → Fin hd → ℝ :=
  fun mi d => (∑ k, sguGateN slen hd normScale x k d * sguWMasked slen weights mi k) + biases mi

/-- `x = x * gate; return self.proj_out(x)`. -/
noncomputable def sguCore (slen hd dout : ℕ) (normScale : Fin hd → ℝ)
    (weights : Fin slen → Fin slen → ℝ) (biases : Fin slen → ℝ)
    (wOut : Fin hd → Fin dout → ℝ) (bOut : Fin dout → ℝ)
    (x : Fin slen → Fin (2 * hd) → ℝ) : Fin slen → Fin dout → ℝ :=
  fun mi o =>
    (∑ d, sguXHalf slen hd x mi d * sguGateMixed slen hd normScale weights biases x mi d
        * wOut d o) + bOut o

/-! ## Claim C5 -/

/-- C5: the SGU output at position `m` is invariant under arbitrary changes
to the gate half of the input at positions `k > m`: if two inputs agree on
the x half everywhere and on the gate half at all positions `≤ m`, the
output rows at `m` coincide (the mixing matrix is tril-masked at every
use). -/
theorem sgu_causal (slen hd dout : ℕ) (normScale : Fin hd → ℝ)
    (weights : Fin slen → Fin slen → ℝ) (biases : Fin slen → ℝ)
    (wOut : Fin hd → Fin dout → ℝ) (bOut : Fin dout → ℝ)
    (x y : Fin slen → Fin (2 * hd) → ℝ) (mi : Fin slen)
    (hx : ∀ (i : Fin slen) (d : Fin (2 * hd)), d.val < hd → x i d = y i d)
    (hg : ∀ k : Fin slen, k.val ≤ mi.val → ∀ d : Fin (2 * hd), hd ≤ d.val → x k d = y k d) :
    ∀ o : Fin dout,
      sguCore slen hd dout normScale weights biases wOut bOut x mi o
        = sguCore slen hd dout normScale weights biases wOut bOut y mi o := by
  intro o
  have h1 : ∀ d : Fin hd, sguXHalf slen hd x mi d = sguXHalf slen hd y mi d :=
    fun d => hx mi ⟨d.val, by have := d.isLt; omega⟩ d.isLt
  have h2 : ∀ d : Fin hd,
      sguGateMixed slen hd normScale weights biases x mi d
        = sguGateMixed slen hd normScale weights biases y mi d := by
    intro d
    unfold sguGateMixed
    congr 1
    refine Finset.sum_congr rfl fun k _ => ?_
    by_cases hk : k.val ≤ mi.val
    · have hgk : sguGateN slen hd normScale x k = sguGateN slen hd normScale y k := by
        unfold sguGateN
        exact congrArg (layerNorm hd normScale)
          (funext fun d' => hg k hk ⟨hd + d'.val, by have := d'.isLt; omega⟩ (Nat.le_add_right _ _))
      rw [hgk]
    · unfold sguWMasked
      rw [if_neg hk, mul_zero, mul_zero, mul_zero]
  unfold sguCore
  congr 1
  exact Finset.sum_congr rfl fun d _ => by rw [h1 d, h2 d]

/-- C5 witness: concrete application at `slen = hd = dout = 1` with both
runs fed the same input (hypotheses discharged pointwise). -/
theorem sgu_causal_witness :
    sguCore 1 1 1 (fun _ => 0) (fun _ _ => 0) (fun _ => 0) (fun _ _ => 0) (fun _ => 0)
        (fun _ _ => 0) 0 0
      = sguCore 1 1 1 (fun _ => 0) (fun _ _ => 0) (fun _ => 0) (fun _ _ => 0) (fun _ => 0)
        (fun _ _ => 0) 0 0 :=
  sgu_causal 1 1 1 (fun _ => 0) (fun _ _ => 0) (fun _ => 0) (fun _ _ => 0) (fun _ => 0)
    (fun _ _ => 0) (fun _ _ => 0) 0
    (fun _ _ _ => rfl) (fun _ _ _ _ => rfl) 0

/-! ## FeedForward -/

/-- `jax.nn.gelu` (its default tanh approximation). -/
noncomputable def gelu (x : ℝ) : ℝ :=
  0.5 * x * (1 + Real.tanh (Real.sqrt (2 / Real.pi) * (x + 0.044715 * x ^ 3)))

/-- Learned parameters of `FeedForward` with `hidden = dim * ff_mult`.  The
spatial-gating parameters and both possible output projections are carried
unconditionally; `spatial_gate` decides which are used. -/
structure FFParams (dim hidden slen : ℕ) where
  normScale : Fin dim → ℝ
  wIn : Fin dim → Fin hidden → ℝ
  bIn : Fin hidden → ℝ
  sguNormScale : Fin (hidden / 2) → ℝ
  sguWeights : Fin slen → Fin slen → ℝ
  sguBiases : Fin slen → ℝ
  sguWOut : Fin (hidden / 2) → Fin (hidden / 2) → ℝ
  sguBOut : Fin (hidden / 2) → ℝ
  wOutG : Fin (hidden / 2) → Fin dim → ℝ
  bOutG : Fin dim → ℝ
  wOut : Fin hidden → Fin dim → ℝ
  bOut : Fin dim → ℝ

/-- `norm → proj_in → gelu`. -/
noncomputable def ffHidden (dim hidden slen n : ℕ) (p : FFParams dim hidden slen)
    (x : Fin n → Fin dim → ℝ) : Fin n → Fin hidden → ℝ :=
  fun i o => gelu ((∑ d, layerNorm dim p.normScale (x i) d * p.wIn d o) + p.bIn o)

/-- `FeedForward.__call__`.  With spatial gating on, the SGU's
`(slen, slen)` einsum requires the runtime length to equal the
construction-time `seq_len` and `np.split(x, 2)` requires an even hidden
width; a violation is a synchronous shape error, modelled as `none`. -/
noncomputable def feedForward (dim hidden slen n : ℕ) (gate : Bool)
    (p : FFParams dim hidden slen) (x : Fin n → Fin dim → ℝ) :
    Option (Fin n → Fin dim → ℝ) :=
  if gate then
    if h : n = slen ∧ hidden % 2 = 0 then
      some (fun i o =>
        (∑ d, sguCore slen (hidden / 2) (hidden / 2) p.sguNormScale p.sguWeights p.sguBiases
            p.sguWOut p.sguBOut
            (fun i' d' =>
              ffHidden dim hidden slen n p x (Fin.cast h.1.symm i')
                (Fin.cast (by omega) d'))
            (Fin.cast h.1 i) d * p.wOutG d o) + p.bOutG o)
    else none
  else some (fun i o => (∑ d, ffHidden dim hidden slen n p x i d * p.wOut d o) + p.bOut o)

/-! ## Claim C8 -/

/-- C8: a gated feed-forward layer whose runtime sequence length differs
from the construction-time `seq_len` fails fast (no output is produced). -/
theorem feedForward_seqlen_contract (dim hidden slen n : ℕ) (p : FFParams dim hidden slen)
    (x : Fin n → Fin dim → ℝ) (hne : n ≠ slen) :
    feedForward dim hidden slen n true p x = none := by
  unfold feedForward
  rw [if_pos rfl, dif_neg]
  intro hcontra
  exact hne hcontra.1

/-- C8 witness: a gated layer built for `seq_len = 2` fed a length-1 input
produces no output. -/
theorem feedForward_seqlen_contract_witness :
    feedForward 1 2 2 1 true
      ⟨fun _ => 0, fun _ _ => 0, fun _ => 0, fun _ => 0, fun _ _ => 0, fun _ => 0,
        fun _ _ => 0, fun _ => 0, fun _ _ => 0, fun _ => 0, fun _ _ => 0, fun _ => 0⟩
      (fun _ _ => 0) = none :=
  feedForward_seqlen_contract 1 2 2 1
    ⟨fun _ => 0, fun _ _ => 0, fun _ => 0, fun _ => 0, fun _ _ => 0, fun _ => 0,
      fun _ _ => 0, fun _ => 0, fun _ _ => 0, fun _ => 0, fun _ _ => 0, fun _ => 0⟩
    (fun _ _ => 0) (by decide)

/-! ## ProGenBase -/

/-- Learned parameters of the full stack: embedding table, per-layer
attention and feed-forward parameters, final norm scale and logit
projection. -/
structure ProGenParams (numTokens dim H m hidden slen depth : ℕ) where
  embed : Fin numTokens → Fin dim → ℝ
  attn : Fin depth → LAParams dim H m
  ff : Fin depth → FFParams dim hidden slen
  finalNormScale : Fin dim → ℝ
  wLogits : Fin dim → Fin numTokens → ℝ
  bLogits : Fin numTokens → ℝ

/-- The residual layer loop of `ProGenBase.__call__`:
`x += attn(x, pos_emb = rotary_emb); x += ff(x)` for layers `i, i+1, ...`;
layer `i` is gated when `(depth - i) <= global_mlp_depth`.  A shape failure
in any layer aborts the whole pass (`Option.bind`). -/
noncomputable def runLayers (dim H m wsz slen gmlp ffMult depth n : ℕ)
    (attnP : Fin depth → LAParams dim H m)
    (ffP : Fin depth → FFParams dim (dim * ffMult) slen)
    (sc : (Fin n → Fin m → ℝ) × (Fin n → Fin m → ℝ))
    (i : ℕ) (x : Fin n → Fin dim → ℝ) : Option (Fin n → Fin dim → ℝ) :=
  if h : i < depth then
    (localAttention dim H m wsz (attnP ⟨i, h⟩) n sc x).bind fun a =>
      let x1 : Fin n → Fin dim → ℝ := fun r c => x r c + a r c
      (feedForward dim (dim * ffMult) slen n (decide (depth - i ≤ gmlp)) (ffP ⟨i, h⟩) x1).bind
        fun f =>
          runLayers dim H m wsz slen gmlp ffMult depth n attnP ffP sc (i + 1)
            (fun r c => x1 r c + f r c)
  else some x
termination_by depth - i
decreasing_by omega

/-- `ProGenBase.__call__` (as applied by the `hk.transform` wrapper): embed
the tokens, compute one rotary table `fixed_pos_embedding(n, dim_head)`
shared by every layer (`dim_head = 2 * m`), run the residual layers, then
layer-norm and project to logits.  The construction arguments `attn_dim`
and `clamp_gate` are accepted exactly as in `ProGenBase.__init__`. -/
noncomputable def progenForward (numTokens dim slen depth wsz gmlp H m ffMult : ℕ)
    (_attnDim : Option ℕ) (_clampGate : Bool) (n : ℕ)
    (p : ProGenParams numTokens dim H m (dim * ffMult) slen depth)
    (tokens : Fin n → Fin numTokens) : Option (Fin n → Fin numTokens → ℝ) :=
  let x0 : Fin n → Fin dim → ℝ := fun i d => p.embed (tokens i) d
  let fp := fixedPosEmbedding n (2 * m)
  let sc : (Fin n → Fin m → ℝ) × (Fin n → Fin m → ℝ) :=
    (fun i j => fp.1 i (Fin.cast (by omega) j), fun i j => fp.2 i (Fin.cast (by omega) j))
  (runLayers dim H m wsz slen gmlp ffMult depth n p.attn p.ff sc 0 x0).map fun xf =>
    fun i t =>
      (∑ d, layerNorm dim p.finalNormScale (xf i) d * p.wLogits d t) + p.bLogits t

/-! ## Success/failure helpers for the shape contracts -/

theorem localAttention_eq_none (dim H m S n : ℕ) (p : LAParams dim H m)
    (sc : (Fin n → Fin m → ℝ) × (Fin n → Fin m → ℝ)) (x : Fin n → Fin dim → ℝ)
    (h : ¬ n % S = 0) : localAttention dim H m S p n sc x = none := by
  unfold localAttention
  rw [dif_neg h]

theorem localAttention_isSome (dim H m S n : ℕ) (p : LAParams dim H m)
    (sc : (Fin n → Fin m → ℝ) × (Fin n → Fin m → ℝ)) (x : Fin n → Fin dim → ℝ)
    (h : n % S = 0) : (localAttention dim H m S p n sc x).isSome = true := by
  unfold localAttention
  rw [dif_pos h]
  rfl

theorem feedForward_isSome (dim hidden slen n : ℕ) (gate : Bool)
    (p : FFParams dim hidden slen) (x : Fin n → Fin dim → ℝ)
    (hs : n = slen) (he : hidden % 2 = 0) :
    (feedForward dim hidden slen n gate p x).isSome = true := by
  unfold feedForward
  cases gate
  · rfl
  · rw [if_pos rfl, dif_pos ⟨hs, he⟩]
    rfl

theorem runLayers_isSome_aux (dim H m wsz slen gmlp ffMult depth n : ℕ)
    (attnP : Fin depth → LAParams dim H m)
    (ffP : Fin depth → FFParams dim (dim * ffMult) slen)
    (sc : (Fin n → Fin m → ℝ) × (Fin n → Fin m → ℝ))
    (hw : n % wsz = 0) (hs : n = slen) (he : (dim * ffMult) % 2 = 0) :
    ∀ (k i : ℕ), depth - i ≤ k → ∀ x : Fin n → Fin dim → ℝ,
      (runLayers dim H m wsz slen gmlp ffMult depth n attnP ffP sc i x).isSome = true := by
  intro k
  induction k with
  | zero =>
    intro i hk x
    unfold runLayers
    rw [dif_neg (by omega)]
    rfl
  | succ k ih =>
    intro i hk x
    unfold runLayers
    split
    · rename_i h
      obtain ⟨a, ha⟩ := Option.isSome_iff_exists.mp
        (localAttention_isSome dim H m wsz n (attnP ⟨i, h⟩) sc x hw)
      rw [ha]
      simp only [Option.some_bind]
      obtain ⟨f, hf⟩ := Option.isSome_iff_exists.mp
        (feedForward_isSome dim (dim * ffMult) slen n (decide (depth - i ≤ gmlp)) (ffP ⟨i, h⟩)
          (fun r c => x r c + a r c) hs he)
      rw [hf]
      simp only [Option.some_bind]
      exact ih (i + 1) (by omega) _
    · rfl

theorem runLayers_isSome (dim H m wsz slen gmlp ffMult depth n : ℕ)
    (attnP : Fin depth → LAParams dim H m)
    (ffP : Fin depth → FFParams dim (dim * ffMult) slen)
    (sc : (Fin n → Fin m → ℝ) × (Fin n → Fin m → ℝ))
    (hw : n % wsz = 0) (hs : n = slen) (he : (dim * ffMult) % 2 = 0)
    (i : ℕ) (x : Fin n → Fin dim → ℝ) :
    (runLayers dim H m wsz slen gmlp ffMult depth n attnP ffP sc i x).isSome = true :=
  runLayers_isSome_aux dim H m wsz slen gmlp ffMult depth n attnP ffP sc hw hs he
    (depth - i) i le_rfl x

theorem progenForward_isSome (numTokens dim slen depth wsz gmlp H m ffMult : ℕ)
    (attnDim : Option ℕ) (clampGate : Bool) (n : ℕ)
    (p : ProGenParams numTokens dim H m (dim * ffMult) slen depth)
    (tokens : Fin n → Fin numTokens)
    (hw : n % wsz = 0) (hs : n = slen) (he : (dim * ffMult) % 2 = 0) :
    (progenForward numTokens dim slen depth wsz gmlp H m ffMult attnDim clampGate n
      p tokens).isSome = true := by
  simp only [progenForward]
  obtain ⟨xf, hxf⟩ := Option.isSome_iff_exists.mp
    (runLayers_isSome dim H m wsz slen gmlp ffMult depth n p.attn p.ff
      (fun i j => (fixedPosEmbedding n (2 * m)).1 i (Fin.cast (by omega) j),
       fun i j => (fixedPosEmbedding n (2 * m)).2 i (Fin.cast (by omega) j))
      hw hs he 0 (fun i d => p.embed (tokens i) d))
  rw [hxf]
  rfl

/-! ## Claims C7, C9, C10 -/

/-- C7: `LocalAttention` on a length not divisible by `window_size` fails
fast (the assert, modelled as `none`) and produces no result, and so does a
whole forward pass with `depth ≥ 1`; on a divisible length the call
succeeds with an `(n, dim)`-shaped output. -/
theorem localAttention_divisibility_contract :
    (∀ (dim H m S n : ℕ) (p : LAParams dim H m)
        (sc : (Fin n → Fin m → ℝ) × (Fin n → Fin m → ℝ)) (x : Fin n → Fin dim → ℝ),
      (¬ n % S = 0 → localAttention dim H m S p n sc x = none) ∧
        (n % S = 0 → (localAttention dim H m S p n sc x).isSome = true)) ∧
    (∀ (numTokens dim slen depth wsz gmlp H m ffMult n : ℕ) (ad : Option ℕ) (cg : Bool)
        (p : ProGenParams numTokens dim H m (dim * ffMult) slen depth)
        (tok : Fin n → Fin numTokens),
      1 ≤ depth → ¬ n % wsz = 0 →
        progenForward numTokens dim slen depth wsz gmlp H m ffMult ad cg n p tok = none) := by
  constructor
  · intro dim H m S n p sc x
    exact ⟨localAttention_eq_none dim H m S n p sc x, localAttention_isSome dim H m S n p sc x⟩
  · intro numTokens dim slen depth wsz gmlp H m ffMult n ad cg p tok hd hn
    have h0 : ∀ (sc : (Fin n → Fin m → ℝ) × (Fin n → Fin m → ℝ))
        (x0 : Fin n → Fin dim → ℝ),
        runLayers dim H m wsz slen gmlp ffMult depth n p.attn p.ff sc 0 x0 = none := by
      intro sc x0
      unfold runLayers
      rw [dif_pos (show 0 < depth by omega),
        localAttention_eq_none dim H m wsz n _ sc x0 hn]
      rfl
    simp only [progenForward, h0, Option.map_none']

/-- C7 witness: window size 2 rejects length 3 (both at the attention layer
and through a depth-1 model) and accepts length 4. -/
theorem localAttention_divisibility_contract_witness :
    (localAttention 1 1 1 2 ⟨fun _ => 0, fun _ _ => 0, fun _ _ => 0, fun _ => 0⟩ 3
        (fun _ _ => 0, fun _ _ => 0) (fun _ _ => 0) = none) ∧
    ((localAttention 1 1 1 2 ⟨fun _ => 0, fun _ _ => 0, fun _ _ => 0, fun _ => 0⟩ 4
        (fun _ _ => 0, fun _ _ => 0) (fun _ _ => 0)).isSome = true) ∧
    (progenForward 1 1 1 1 2 0 1 1 1 none true 3
        ⟨fun _ _ => 0, fun _ => ⟨fun _ => 0, fun _ _ => 0, fun _ _ => 0, fun _ => 0⟩,
         fun _ => ⟨fun _ => 0, fun _ _ => 0, fun _ => 0, fun _ => 0, fun _ _ => 0, fun _ => 0,
           fun _ _ => 0, fun _ => 0, fun _ _ => 0, fun _ => 0, fun _ _ => 0, fun _ => 0⟩,
         fun _ => 0, fun _ _ => 0, fun _ => 0⟩
        (fun _ => 0) = none) :=
  ⟨(localAttention_divisibility_contract.1 1 1 1 2 3 _ _ _).1 (by decide),
   (localAttention_divisibility_contract.1 1 1 1 2 4 _ _ _).2 (by decide),
   localAttention_divisibility_contract.2 1 1 1 1 2 0 1 1 1 3 none true _ _
     (by decide) (by decide)⟩

/-- C9 counterexample: `dim = 3` is not divisible by `heads = 2`, yet
construction and a depth-1 forward pass (with a gated feed-forward layer)
succeed and produce logits — the code never checks `dim % heads`, since the
qkv projection has width `3 * heads * dim_head` independent of `dim`. -/
theorem progen_dim_heads_counterexample :
    (progenForward 1 3 1 1 1 1 2 1 2 none true 1
      ⟨fun _ _ => 0, fun _ => ⟨fun _ => 0, fun _ _ => 0, fun _ _ => 0, fun _ => 0⟩,
       fun _ => ⟨fun _ => 0, fun _ _ => 0, fun _ => 0, fun _ => 0, fun _ _ => 0, fun _ => 0,
         fun _ _ => 0, fun _ => 0, fun _ _ => 0, fun _ => 0, fun _ _ => 0, fun _ => 0⟩,
       fun _ => 0, fun _ _ => 0, fun _ => 0⟩
      (fun _ => 0)).isSome = true :=
  progenForward_isSome 1 3 1 1 1 1 2 1 2 none true 1 _ _ (by decide) (by decide) (by decide)

/-- C9 (amended): the forward pass performs no `dim % heads` divisibility
check at all — for any `dim` and `heads` it succeeds whenever the contracts
the code does enforce hold (`n % window_size = 0`; for the gated layers
`n = seq_len` and an even hidden width). -/
theorem progen_forward_no_dim_heads_check
    (numTokens dim slen depth wsz gmlp H m ffMult : ℕ)
    (ad : Option ℕ) (cg : Bool) (n : ℕ)
    (p : ProGenParams numTokens dim H m (dim * ffMult) slen depth)
    (tok : Fin n → Fin numTokens)
    (hw : n % wsz = 0) (hs : n = slen) (he : (dim * ffMult) % 2 = 0) :
    (progenForward numTokens dim slen depth wsz gmlp H m ffMult ad cg n p tok).isSome
      = true :=
  progenForward_isSome numTokens dim slen depth wsz gmlp H m ffMult ad cg n p tok hw hs he

/-- C9 witness: `dim = 5`, `heads = 2` (not a divisor) with the enforced
contracts satisfied — the forward pass returns logits. -/
theorem progen_forward_no_dim_heads_check_witness :
    (progenForward 1 5 1 1 1 0 2 1 2 none false 1
      ⟨fun _ _ => 0, fun _ => ⟨fun _ => 0, fun _ _ => 0, fun _ _ => 0, fun _ => 0⟩,
       fun _ => ⟨fun _ => 0, fun _ _ => 0, fun _ => 0, fun _ => 0, fun _ _ => 0, fun _ => 0,
         fun _ _ => 0, fun _ => 0, fun _ _ => 0, fun _ => 0, fun _ _ => 0, fun _ => 0⟩,
       fun _ => 0, fun _ _ => 0, fun _ => 0⟩
      (fun _ => 0)).isSome = true :=
  progen_forward_no_dim_heads_check 1 5 1 1 1 0 2 1 2 none false 1 _ _
    (by decide) (by decide) (by decide)

/-- C10: the constructor arguments `clamp_gate` and `attn_dim` are accepted
but never referenced in the forward computation: for every input and
parameter assignment, forward passes differing only in those two arguments
produce identical logits. -/
theorem progen_clampGate_attnDim_unused
    (numTokens dim slen depth wsz gmlp H m ffMult n : ℕ)
    (a1 a2 : Option ℕ) (c1 c2 : Bool)
    (p : ProGenParams numTokens dim H m (dim * ffMult) slen depth)
    (tok : Fin n → Fin numTokens) :
    progenForward numTokens dim slen depth wsz gmlp H m ffMult a1 c1 n p tok
      = progenForward numTokens dim slen depth wsz gmlp H m ffMult a2 c2 n p tok := rfl

end ProGen
